import Mathlib

/-!
Verification of the fornax query API (fornax/api.py) against its
natural-language specification.

The Python module is shallowly embedded: pure functions become Lean
functions, the database-backed accessors of QueryHandle become functions
of an explicit QueryData value holding the persisted rows relevant to one
query, and the optimiser fornax.opt.solve (whose module is not part of
the sources) is passed in as an explicit function argument.  Python ints
are Int, Python floats are Rat (the code only adds, subtracts, divides
and compares them), and Python exceptions are Except String.
-/

namespace Fornax

/-- sys.maxsize of CPython on a 64-bit platform; kept as a parameter
value so statements can also cover other platforms. -/
def sysMaxsize64 : Int := 2 ^ 63 - 1

/-- The constant SQLITE_MAX_SIZE = 2147483647 from api.py. -/
def SQLITE_MAX_SIZE : Int := 2147483647

/-- MAX_SIZE from api.py: sys.maxsize, lowered to the sqlite integer
width limit when the DB_URL selects the sqlite backend. -/
def MAX_SIZE (sysMaxsize : Int) (dbUrlIsSqlite : Bool) : Int :=
  if dbUrlIsSqlite then min sysMaxsize SQLITE_MAX_SIZE else sysMaxsize

/-- A Python value used as a hash key in api.py: either an int, or any
other object coerced by str() to its display string. -/
inductive PyKey where
  | pint : Int → PyKey
  | pstr : String → PyKey
deriving DecidableEq, Repr

/-- _hash from api.py: an int is reduced mod MAX_SIZE (Python % is
floored division remainder, i.e. Int.emod for a positive modulus); any
other value is coerced to its display string, fed through sha256 and the
hexdigest-as-integer is reduced mod MAX_SIZE.  The sha256
hexdigest-to-integer map is abstracted as a function String → Nat. -/
def _hash (sha256int : String → Nat) (maxSize : Int) : PyKey → Int
  | .pint n => n % maxSize
  | .pstr s => (sha256int s : Int) % maxSize

/-- The single-quote character used by the Python repr of strings. -/
def quoteChar : Char := Char.ofNat 39

/-- Python str((n, s)) for an int n and a string s, as produced when
api.py hashes a (node id, node type) pair. -/
def tupleStr (n : Int) (s : String) : String :=
  "(" ++ toString n ++ ", " ++ String.singleton quoteChar ++ s ++
    String.singleton quoteChar ++ ")"

/-- Python str((a, b)) for a pair of ints. -/
def pairStr (p : Int × Int) : String :=
  "(" ++ toString p.1 ++ ", " ++ toString p.2 ++ ")"

/-- Python str(tuple(ps)) for a sequence of int pairs (note the trailing
comma Python prints for a one-element tuple); this is the key api.py
hashes to tie-break equally scored subgraphs. -/
def tupleSeqStr (ps : List (Int × Int)) : String :=
  match ps with
  | [] => "()"
  | [p] => "(" ++ pairStr p ++ ",)"
  | _ => "(" ++ String.intercalate ", " (ps.map pairStr) ++ ")"

/-- The hash api.py computes for a node identity (raw id, role). -/
def hashIdType (sha256int : String → Nat) (maxSize : Int)
    (n : Int) (role : String) : Int :=
  _hash sha256int maxSize (.pstr (tupleStr n role))

/-- The in-memory Node class of api.py (fields id, type, meta); the
constructor enforces type ∈ \x7bquery, target\x7d.  The json meta dict
is kept opaque as its dumped string. -/
structure Node where
  id : Int
  type : String
  meta : String
deriving DecidableEq, Repr

/-- The in-memory Edge class of api.py (fields start, end, type, meta,
weight, weight defaulting to 1); the constructor enforces
type ∈ \x7bquery, target, match\x7d.  meta is none for the Python None
used by the first pass of _target_edges. -/
structure Edge where
  start : Int
  «end» : Int
  type : String
  meta : Option String
  weight : ℚ := 1
deriving DecidableEq, Repr

/-- Node.to_dict output: the json-serialisable node payload.  The id is
the node id hashed together with the node type; the Python dict merge
with meta cannot overwrite id or type because add_nodes reserves the id
key (and meta holds only caller keyword columns). -/
structure NodePayload where
  id : Int
  type : String
  meta : String
deriving DecidableEq, Repr

/-- Edge.to_dict output: the json-serialisable link payload. -/
structure EdgePayload where
  source : Int
  target : Int
  type : String
  weight : ℚ
  meta : Option String
deriving DecidableEq, Repr

/-- Node.to_dict from api.py. -/
def Node.to_dict (sha256int : String → Nat) (maxSize : Int)
    (n : Node) : NodePayload :=
  { id := hashIdType sha256int maxSize n.id n.type
    type := n.type
    meta := n.meta }

/-- Edge.to_dict from api.py: query/target edges hash each endpoint with
the edge type; match edges hash the start with role query and the end
with role target.  (The Edge constructor guarantees the type is one of
query, target, match, so the else branch is the match case.) -/
def Edge.to_dict (sha256int : String → Nat) (maxSize : Int)
    (e : Edge) : EdgePayload :=
  if e.type = "query" ∨ e.type = "target" then
    { source := hashIdType sha256int maxSize e.start e.type
      target := hashIdType sha256int maxSize e.«end» e.type
      type := e.type, weight := e.weight, meta := e.meta }
  else
    { source := hashIdType sha256int maxSize e.start "query"
      target := hashIdType sha256int maxSize e.«end» "target"
      type := e.type, weight := e.weight, meta := e.meta }

/-- Python Node.__lt__: lexicographic on (type, id). -/
def nodeLt (a b : Node) : Bool :=
  decide (a.type < b.type) || (a.type == b.type && decide (a.id < b.id))

/-- Python sorted over Nodes: a stable sort whose le is the negation of
the reversed __lt__. -/
def sortNodes (ns : List Node) : List Node :=
  ns.mergeSort (fun a b => !(nodeLt b a))

/-- Python Edge.__lt__: lexicographic on (type, start, end). -/
def edgeLt (a b : Edge) : Bool :=
  decide (a.type < b.type) ||
    (a.type == b.type && (decide (a.start < b.start) ||
      (a.start == b.start && decide (a.«end» < b.«end»))))

/-- Python sorted over Edges. -/
def sortEdges (es : List Edge) : List Edge :=
  es.mergeSort (fun a b => !(edgeLt b a))

/-- Python sorted over int pairs (tuple comparison is lexicographic). -/
def pairLe (a b : Int × Int) : Bool :=
  decide (a.1 < b.1) || (a.1 == b.1 && decide (a.2 ≤ b.2))

def sortPairs (ps : List (Int × Int)) : List (Int × Int) :=
  ps.mergeSort pairLe

/-- Python int(x) for the embedded values: an int is itself; any other
value is a display string, which parses as an optionally signed integer
literal or raises ValueError. -/
def pyInt : PyKey → Except String Int
  | .pint n => .ok n
  | .pstr s => match s.toInt? with
    | some n => .ok n
    | none => .error "ValueError"

/-- A model.Match row as built by add_matches and consumed by
check_matches: identifiers may a priori be arbitrary values, the weight
is numeric (so the float coercion in check_matches always succeeds and
only the bounds test is operative). -/
structure RawMatch where
  start : PyKey
  «end» : PyKey
  weight : ℚ
  meta : String
deriving DecidableEq, Repr

/-- check_matches from api.py, consumed eagerly (session.add_all drains
the generator; on an exception the transaction rolls back, so the net
effect is all-or-nothing): each match must have int-coercible start and
end and a weight with 0 < weight <= 1; valid matches are yielded
unchanged.  There is no start = end test here (that test lives in
check_edges, for edges). -/
def check_matches : List RawMatch → Except String (List RawMatch)
  | [] => .ok []
  | m :: ms =>
    match pyInt m.start with
    | .error _ => .error "match start must be int"
    | .ok _ =>
      match pyInt m.«end» with
      | .error _ => .error "match end must be int"
      | .ok _ =>
        if 0 < m.weight ∧ m.weight ≤ 1 then
          (check_matches ms).map (fun l => m :: l)
        else .error "bounds error: 0 < weight <= 1"

/-- A model.Edge row persisted for a graph (start, end already hashed to
ints by add_edges; graph_id is implicit in the containing QueryData). -/
structure EdgeRow where
  start : Int
  «end» : Int
  meta : String
deriving DecidableEq, Repr

/-- check_edges from api.py: start and end must be int-coercible (they
are ints here, having been produced by _hash) and distinct; valid edges
are yielded unchanged. -/
def check_edges : List EdgeRow → Except String (List EdgeRow)
  | [] => .ok []
  | e :: es =>
    if e.start = e.«end» then
      .error "edges must start and end on different nodes"
    else (check_edges es).map (fun l => e :: l)

/-- GraphHandle.add_edges from api.py, for equally long input columns
(the zip_longest NullValue padding for ragged input is outside the
modelled scope): every (source, target) pair is hashed and an edge row
is built in both directions, then everything is validated by
check_edges. -/
def add_edges (sha256int : String → Nat) (maxSize : Int)
    (sources targets : List PyKey) (metas : List String) :
    Except String (List EdgeRow) :=
  let zipped := (sources.map (_hash sha256int maxSize)).zip
    ((targets.map (_hash sha256int maxSize)).zip metas)
  check_edges (zipped.flatMap (fun z =>
    [⟨z.1, z.2.1, z.2.2⟩, ⟨z.2.1, z.1, z.2.2⟩]))

/-- QueryHandle.add_matches from api.py, for equally long input columns:
sources and targets are hashed to ints, zipped with the weights and the
keyword metadata, and validated by check_matches. -/
def add_matches (sha256int : String → Nat) (maxSize : Int)
    (sources targets : List PyKey) (weights : List ℚ)
    (metas : List String) : Except String (List RawMatch) :=
  let zipped := (sources.map (_hash sha256int maxSize)).zip
    ((targets.map (_hash sha256int maxSize)).zip (weights.zip metas))
  check_matches (zipped.map (fun z =>
    ⟨.pint z.1, .pint z.2.1, z.2.2.1, z.2.2.2⟩))

/-- A model.Node row persisted for a graph. -/
structure NodeRow where
  node_id : Int
  meta : String
deriving DecidableEq, Repr

/-- A model.Match row persisted for a query (start and end are hashed
ints once past check_matches). -/
structure MatchRow where
  start : Int
  «end» : Int
  weight : ℚ
  meta : String
deriving DecidableEq, Repr

/-- The persisted rows visible to one QueryHandle: the node and edge
rows of its query (start) graph and of its target (end) graph, and its
match rows.  The per-query SQL join filters of api.py are pre-applied:
each list holds exactly the rows the corresponding query would return
before any further filter spelled out below. -/
structure QueryData where
  query_nodes : List NodeRow
  target_nodes : List NodeRow
  query_edges : List EdgeRow
  target_edges : List EdgeRow
  «matches» : List MatchRow
deriving Repr

/-- QueryHandle.__len__ from api.py: the count of Match rows with this
query id. -/
def matchCount (db : QueryData) : Nat := db.«matches».length

/-- QueryHandle._query_nodes from api.py. -/
def _query_nodes (db : QueryData) : List Node :=
  db.query_nodes.map (fun n => ⟨n.node_id, "query", n.meta⟩)

/-- QueryHandle._target_nodes from api.py. -/
def _target_nodes (db : QueryData) : List Node :=
  db.target_nodes.map (fun n => ⟨n.node_id, "target", n.meta⟩)

/-- QueryHandle._query_edges from api.py: the stored (symmetric) edge
rows of the query graph filtered to start < end, wrapped as query
Edges. -/
def _query_edges (db : QueryData) : List Edge :=
  (db.query_edges.filter (fun e => decide (e.start < e.«end»))).map
    (fun e => ⟨e.start, e.«end», "query", some e.meta, 1⟩)

/-- QueryHandle.is_between from api.py. -/
def is_between (target_ids : List Int) (edge : Edge) : Bool :=
  decide (edge.start ∈ target_ids) && decide (edge.«end» ∈ target_ids)

/-- One row of the target_edges_arr by-product of the optimiser: the
columns u, uu, dist_u (two target node ids and their bounded path
distance). -/
structure TargetEdgeRec where
  u : Int
  uu : Int
  dist_u : ℚ
deriving DecidableEq, Repr

/-- QueryHandle._target_edges from api.py: keep the optimiser target
edge records with dist_u < 2 (a constant, independent of the
hopping_distance used for the run), keep those between known target
node ids, and look up the corresponding stored edge rows of the target
graph with start in the collected minima, end in the collected maxima
and start < end, distinct.  SQL DISTINCT is modelled as List.dedup on
the (start, end, meta) rows. -/
def _target_edges (db : QueryData) (target_nodes : List Node)
    (target_edges_arr : List TargetEdgeRec) : List Edge :=
  let target_ids := target_nodes.map (fun n => n.id)
  let cands := (target_edges_arr.filter (fun r => decide (r.dist_u < 2))).map
    (fun r => (⟨r.u, r.uu, "target", none, 1⟩ : Edge))
  let cands := cands.filter (is_between target_ids)
  let starts : List Int := cands.map (fun e => min e.start e.«end»)
  let endList : List Int := cands.map (fun e => max e.start e.«end»)
  ((db.target_edges.filter (fun e =>
      decide (e.start ∈ starts) && decide (e.«end» ∈ endList) &&
        decide (e.start < e.«end»))).dedup).map
    (fun e => ⟨e.start, e.«end», "target", some e.meta, 1⟩)

/-- The tuple returned by fornax.opt.solve and unpacked by
QueryHandle._optimise.

Modelled from the spec: the module fornax/opt.py is not among the
sources; §4.3 of the spec fixes only the shape of its output — a table
of inference costs keyed by matched (query node, target node) pairs, a
collection of extracted subgraphs each an ordered sequence of such
pairs, the iteration count actually used, the size normalizer sz, and
the target edge structural by-product.  The cost table is total here
(api.py only ever reads it at pairs drawn from the subgraphs, which the
spec restricts to matched pairs). -/
structure OptResult where
  inference_costs : Int × Int → ℚ
  subgraphs : List (List (Int × Int))
  iters : Nat
  sz : Int
  target_edges_arr : List TargetEdgeRec

/-- QueryHandle._get_scores from api.py: per subgraph, the sum of the
inference costs of its pairs, plus sz minus the subgraph length, all
divided by the number of query nodes. -/
def _get_scores (inference_costs : Int × Int → ℚ) (query_nodes : List Node)
    (subgraphs : List (List (Int × Int))) (sz : Int) : List ℚ :=
  subgraphs.map (fun subgraph =>
    (((subgraph.map inference_costs).sum + ((sz : ℚ) - subgraph.length)))
      / (query_nodes.length : ℚ))

/-- The sort key api.py uses on the enumerated scores: the score itself,
then the hash of the tuple of the matched pairs of the corresponding
subgraph. -/
def rankKey (sha256int : String → Nat) (maxSize : Int)
    (subgraphs : List (List (Int × Int))) (x : Nat × ℚ) : ℚ × Int :=
  (x.2, _hash sha256int maxSize (.pstr (tupleSeqStr (subgraphs.getD x.1 []))))

/-- Lexicographic le on the (score, tie-break hash) keys. -/
def rankLe (sha256int : String → Nat) (maxSize : Int)
    (subgraphs : List (List (Int × Int))) (a b : Nat × ℚ) : Bool :=
  let ka := rankKey sha256int maxSize subgraphs a
  let kb := rankKey sha256int maxSize subgraphs b
  decide (ka.1 < kb.1) || (ka.1 == kb.1 && decide (ka.2 ≤ kb.2))

/-- The idxs list of QueryHandle.execute: the enumerated scores stably
sorted by (score, tie-break hash of the subgraph). -/
def rankSort (sha256int : String → Nat) (maxSize : Int)
    (subgraphs : List (List (Int × Int))) (scores : List ℚ) :
    List (Nat × ℚ) :=
  scores.enum.mergeSort (rankLe sha256int maxSize subgraphs)

/-- The match edge payload api.py builds for one pair of a subgraph:
an Edge of type match with weight 1 - inference_costs (start, end) and
an empty metadata dict, serialised by Edge.to_dict. -/
def matchPayload (sha256int : String → Nat) (maxSize : Int)
    (inference_costs : Int × Int → ℚ) (p : Int × Int) : EdgePayload :=
  Edge.to_dict sha256int maxSize
    ⟨p.1, p.2, "match", some "\x7b\x7d", 1 - inference_costs p⟩

/-- One result graph dict of QueryHandle.execute. -/
structure GraphResult where
  is_multigraph : Bool
  cost : ℚ
  nodes : List NodePayload
  links : List EdgePayload
deriving DecidableEq, Repr

/-- The body of the selection loop of QueryHandle.execute for one ranked
entry (i, score): the match payloads of subgraph i in sorted pair order,
the query node and edge payloads always included, the target node
payloads filtered to hashed ids occurring as a hashed match end, and the
target edge payloads filtered to both endpoints occurring as hashed
match ends. -/
def buildGraph (sha256int : String → Nat) (maxSize : Int)
    (inference_costs : Int × Int → ℚ)
    (subgraphs : List (List (Int × Int)))
    (query_nodes_payload : List NodePayload)
    (query_edges_payload : List EdgePayload)
    (target_nodes_payload : List NodePayload)
    (target_edges_payload : List EdgePayload)
    (x : Nat × ℚ) : GraphResult :=
  let subgraph := subgraphs.getD x.1 []
  let matchLinks := (sortPairs subgraph).map
    (matchPayload sha256int maxSize inference_costs)
  let match_ends := (subgraph.map (fun p => p.2)).map
    (fun t => hashIdType sha256int maxSize t "target")
  { is_multigraph := false
    cost := x.2
    nodes := query_nodes_payload ++ target_nodes_payload.filter
      (fun nd => decide (nd.id ∈ match_ends))
    links := matchLinks ++ query_edges_payload ++
      target_edges_payload.filter (fun e =>
        decide (e.source ∈ match_ends) && decide (e.target ∈ match_ends)) }

/-- The result dict of QueryHandle.execute. -/
structure ExecuteResult where
  graphs : List GraphResult
  iters : Nat
  hopping_distance : Nat
  max_iters : Nat

/-- QueryHandle.execute from api.py.  The neighbourhood building and
optimisation step (fornax.select.join composed with fornax.opt.solve,
neither module among the sources) is the function argument solve, a
pure function of the persisted data, the hopping distance and the
iteration budget, as _optimise invokes it. -/
def execute (sha256int : String → Nat) (maxSize : Int) (db : QueryData)
    (solve : QueryData → Nat → Nat → OptResult)
    (n : Nat) (hopping_distance : Nat) (max_iters : Nat) :
    Except String ExecuteResult :=
  if matchCount db = 0 then
    .error "Cannot execute query with no matches"
  else
    let query_nodes := sortNodes (_query_nodes db)
    let target_nodes := sortNodes (_target_nodes db)
    let query_edges := sortEdges (_query_edges db)
    let packed := solve db hopping_distance max_iters
    let target_edges :=
      sortEdges (_target_edges db target_nodes packed.target_edges_arr)
    let scores :=
      _get_scores packed.inference_costs query_nodes packed.subgraphs packed.sz
    let idxs := rankSort sha256int maxSize packed.subgraphs scores
    let query_nodes_payload :=
      query_nodes.map (Node.to_dict sha256int maxSize)
    let query_edges_payload :=
      query_edges.map (Edge.to_dict sha256int maxSize)
    let target_nodes_payload :=
      target_nodes.map (Node.to_dict sha256int maxSize)
    let target_edges_payload :=
      target_edges.map (Edge.to_dict sha256int maxSize)
    let graphs := (idxs.take (min n idxs.length)).map
      (buildGraph sha256int maxSize packed.inference_costs packed.subgraphs
        query_nodes_payload query_edges_payload
        target_nodes_payload target_edges_payload)
    .ok ⟨graphs, packed.iters, hopping_distance, max_iters⟩

def dbC1 : QueryData :=
  { query_nodes := [⟨1, "a"⟩]
    target_nodes := [⟨2, "b"⟩]
    query_edges := []
    target_edges := []
    «matches» := [] }

def dbC3 : QueryData :=
  { query_nodes := [⟨1, "qa"⟩, ⟨2, "qb"⟩]
    target_nodes := [⟨10, "ta"⟩, ⟨20, "tb"⟩]
    query_edges := [⟨1, 2, "m"⟩, ⟨2, 1, "m"⟩]
    target_edges := [⟨10, 20, "m"⟩, ⟨20, 10, "m"⟩]
    «matches» := [⟨1, 10, 1, "m"⟩, ⟨2, 20, 1, "m"⟩] }

def solveC3 : QueryData → Nat → Nat → OptResult := fun _ _ _ =>
  { inference_costs := fun p => if p = (1, 10) then 0 else 1/2
    subgraphs := [[(1, 10), (2, 20)], [(1, 10)]]
    iters := 3
    sz := 2
    target_edges_arr := [⟨10, 20, 1⟩] }

def icC5 : Int × Int → ℚ := fun p => if p = (1, 10) then 0 else 1

/-- A concrete, fully computable stand-in for the sha256
hexdigest-to-integer map, used by the witnesses. -/
def shaSum : String → Nat := fun s => (s.data.map Char.toNat).sum

/-- The sqlite MAX_SIZE value, used by the witnesses. -/
def mxW : Int := 2147483647

def tnC6 : List Node :=
  [⟨10, "target", "ta"⟩, ⟨20, "target", "tb"⟩, ⟨30, "target", "tc"⟩]

def teC6 : List Edge :=
  [⟨10, 20, "target", some "m", 1⟩, ⟨20, 30, "target", some "m", 1⟩]

def sgC6 : List (List (Int × Int)) := [[(1, 10), (2, 20)]]

def qnpC6 : List NodePayload := [⟨5, "query", "qa"⟩]

def qepC6 : List EdgePayload := [⟨7, 8, "query", 1, some "m"⟩]

def gC6 : GraphResult :=
  buildGraph shaSum mxW (fun _ => 0) sgC6 qnpC6 qepC6
    (tnC6.map (Node.to_dict shaSum mxW))
    (teC6.map (Edge.to_dict shaSum mxW)) (0, 0)

def rowsC9 : List EdgeRow := [⟨1, 2, "m"⟩, ⟨2, 1, "m"⟩]

def rowsC9t : List EdgeRow := [⟨3, 4, "m"⟩, ⟨4, 3, "m"⟩]

def dbC9 : QueryData :=
  { query_nodes := []
    target_nodes := []
    query_edges := rowsC9
    target_edges := rowsC9t
    «matches» := [] }

def tnC9 : List Node := [⟨3, "target", "a"⟩, ⟨4, "target", "b"⟩]

def arrC9 : List TargetEdgeRec := [⟨3, 4, 1⟩]

def dbC10 : QueryData :=
  { query_nodes := []
    target_nodes := []
    query_edges := []
    target_edges := [⟨10, 20, "m"⟩, ⟨20, 10, "m"⟩]
    «matches» := [] }

def tnC10 : List Node := [⟨10, "target", "a"⟩, ⟨20, "target", "b"⟩]

/-! ## Theorems -/

theorem MAX_SIZE_pos (sysMaxsize : Int) (hs : 0 < sysMaxsize)
    (b : Bool) : 0 < MAX_SIZE sysMaxsize b := by
  cases b <;> simp [MAX_SIZE, SQLITE_MAX_SIZE] <;> omega

theorem _hash_nonneg (sha256int : String → Nat) (maxSize : Int)
    (hm : 0 < maxSize) (k : PyKey) : 0 ≤ _hash sha256int maxSize k := by
  cases k <;> exact Int.emod_nonneg _ (by omega)

theorem _hash_lt (sha256int : String → Nat) (maxSize : Int)
    (hm : 0 < maxSize) (k : PyKey) : _hash sha256int maxSize k < maxSize := by
  cases k <;> exact Int.emod_lt_of_pos _ hm

/-- C4: for every key, the identity hash returns an integer in
[0, MAX_SIZE), where MAX_SIZE is the platform maximum positive integer
lowered to the sqlite integer width limit when sqlite is the storage
backend; it is deterministic and stateless — a pure, unseeded function
of the key value alone — and a non-int key is hashed through its
display string (the pstr constructor of PyKey). -/
theorem C4_hash_contract (sha256int : String → Nat) (sysMaxsize : Int)
    (hs : 0 < sysMaxsize) (dbUrlIsSqlite : Bool) (k : PyKey) :
    0 ≤ _hash sha256int (MAX_SIZE sysMaxsize dbUrlIsSqlite) k ∧
    _hash sha256int (MAX_SIZE sysMaxsize dbUrlIsSqlite) k <
      MAX_SIZE sysMaxsize dbUrlIsSqlite ∧
    (∀ k' : PyKey, k = k' →
      _hash sha256int (MAX_SIZE sysMaxsize dbUrlIsSqlite) k =
        _hash sha256int (MAX_SIZE sysMaxsize dbUrlIsSqlite) k') ∧
    (∀ s : String,
      _hash sha256int (MAX_SIZE sysMaxsize dbUrlIsSqlite) (.pstr s) =
        (sha256int s : Int) % MAX_SIZE sysMaxsize dbUrlIsSqlite) := by
  have hp := MAX_SIZE_pos sysMaxsize hs dbUrlIsSqlite
  exact ⟨_hash_nonneg _ _ hp k, _hash_lt _ _ hp k,
    fun k' hk => by rw [hk], fun s => rfl⟩

theorem C4_hash_contract_witness :
    (0 : Int) < sysMaxsize64 ∧
    0 ≤ _hash (fun _ => 12345) (MAX_SIZE sysMaxsize64 true) (.pint (-7)) ∧
    _hash (fun _ => 12345) (MAX_SIZE sysMaxsize64 true) (.pint (-7)) <
      MAX_SIZE sysMaxsize64 true := by
  have h := C4_hash_contract (fun _ => 12345) sysMaxsize64
    (by decide) true (.pint (-7))
  exact ⟨by decide, h.1, h.2.1⟩

/-! ## Helper lemmas -/

theorem pairwise_key_inj {α β : Type} (f : α → β) (l : List α)
    (hp : l.Pairwise (fun a b => f a = f b → a = b)) :
    ∀ a ∈ l, ∀ b ∈ l, f a = f b → a = b := by
  intro a ha b hb heq
  by_cases hab : a = b
  · exact hab
  · have hsym : Symmetric (fun a b : α => f a = f b → a = b) := by
      intro x y hxy h
      exact (hxy h.symm).symm
    exact hp.forall hsym ha hb hab heq

theorem check_edges_ok {es l : List EdgeRow} (h : check_edges es = .ok l) :
    l = es ∧ ∀ e ∈ es, e.start ≠ e.«end» := by
  induction es generalizing l with
  | nil =>
    simp only [check_edges] at h
    cases h
    simp
  | cons e es ih =>
    simp only [check_edges] at h
    split at h
    · cases h
    · rename_i hne
      rcases hrec : check_edges es with msg | l'
      · rw [hrec] at h; cases h
      · rw [hrec] at h
        cases h
        obtain ⟨h1, h2⟩ := ih hrec
        subst h1
        refine ⟨rfl, ?_⟩
        intro x hx
        rw [List.mem_cons] at hx
        rcases hx with rfl | hx
        · exact hne
        · exact h2 x hx

theorem countP_eq_one_of_nodup_map {α β : Type} [DecidableEq β]
    (f : α → β) (l : List α) (hnd : (l.map f).Nodup) (b : β)
    (hb : b ∈ l.map f) : l.countP (fun x => decide (f x = b)) = 1 := by
  induction l with
  | nil => cases hb
  | cons a l ih =>
    rw [List.map_cons] at hnd hb
    rw [List.nodup_cons] at hnd
    obtain ⟨hna, hnd⟩ := hnd
    rw [List.countP_cons]
    rw [List.mem_cons] at hb
    by_cases hfa : f a = b
    · have hzero : l.countP (fun x => decide (f x = b)) = 0 := by
        rw [List.countP_eq_zero]
        intro x hx
        simp only [decide_eq_true_eq]
        intro hfx
        exact hna (hfa ▸ hfx ▸ List.mem_map_of_mem f hx)
      simp [hfa, hzero]
    · rcases hb with hb | hb
      · exact absurd hb.symm hfa
      · have := ih hnd hb
        simp [hfa, this]

theorem matchPayload_type (sha256int : String → Nat) (maxSize : Int)
    (inference_costs : Int × Int → ℚ) (p : Int × Int) :
    (matchPayload sha256int maxSize inference_costs p).type = "match" := by
  simp [matchPayload, Edge.to_dict]

theorem matchPayload_weight (sha256int : String → Nat) (maxSize : Int)
    (inference_costs : Int × Int → ℚ) (p : Int × Int) :
    (matchPayload sha256int maxSize inference_costs p).weight =
      1 - inference_costs p := by
  simp [matchPayload, Edge.to_dict]

theorem Edge_to_dict_target (sha256int : String → Nat) (maxSize : Int)
    (e : Edge) (h : e.type = "target") :
    (Edge.to_dict sha256int maxSize e).source =
        hashIdType sha256int maxSize e.start "target" ∧
      (Edge.to_dict sha256int maxSize e).target =
        hashIdType sha256int maxSize e.«end» "target" ∧
      (Edge.to_dict sha256int maxSize e).type = "target" := by
  simp [Edge.to_dict, h]

theorem Edge_to_dict_type (sha256int : String → Nat) (maxSize : Int)
    (e : Edge) : (Edge.to_dict sha256int maxSize e).type = e.type := by
  unfold Edge.to_dict
  split <;> rfl

/-- C1: a query with zero persisted matches makes execute raise the
explicit error before the neighbourhood building / optimisation step is
invoked (the result does not depend on the solve collaborator at all),
and execute never returns a result dictionary for it. -/
theorem C1_zero_matches_fast_fail (sha256int : String → Nat) (maxSize : Int)
    (db : QueryData) (solve : QueryData → Nat → Nat → OptResult)
    (n hopping_distance max_iters : Nat)
    (h : matchCount db = 0) :
    execute sha256int maxSize db solve n hopping_distance max_iters =
      .error "Cannot execute query with no matches" ∧
    ∀ solve' : QueryData → Nat → Nat → OptResult,
      execute sha256int maxSize db solve n hopping_distance max_iters =
        execute sha256int maxSize db solve' n hopping_distance max_iters := by
  refine ⟨?_, ?_⟩
  · simp [execute, h]
  · intro solve'
    simp [execute, h]

theorem C1_zero_matches_fast_fail_witness :
    matchCount dbC1 = 0 ∧
    execute (fun _ => 0) 2147483647 dbC1
        (fun _ _ _ => ⟨fun _ => 0, [], 0, 0, []⟩) 5 2 10 =
      .error "Cannot execute query with no matches" :=
  ⟨rfl, (C1_zero_matches_fast_fail (fun _ => 0) 2147483647 dbC1
    (fun _ _ _ => ⟨fun _ => 0, [], 0, 0, []⟩) 5 2 10 rfl).1⟩

/-- C2: for every subgraph, every cost table, every size normalizer and
every non-empty query node list, the score of the i-th subgraph is the
sum of its pair costs plus (sz minus its size), divided by the count of
all query nodes. -/
theorem C2_score_formula (inference_costs : Int × Int → ℚ)
    (query_nodes : List Node) (subgraphs : List (List (Int × Int)))
    (sz : Int) (hq : query_nodes ≠ []) (i : Nat)
    (hi : i < subgraphs.length) :
    (_get_scores inference_costs query_nodes subgraphs sz).getD i 0 =
      (((subgraphs.getD i []).map inference_costs).sum +
        ((sz : ℚ) - (subgraphs.getD i []).length)) /
        (query_nodes.length : ℚ) := by
  unfold _get_scores
  rw [List.getD_eq_getElem?_getD, List.getD_eq_getElem?_getD,
    List.getElem?_map]
  rw [List.getElem?_eq_getElem hi]
  simp

theorem C2_score_formula_witness :
    ([⟨0, "query", "a"⟩] : List Node) ≠ [] ∧ 0 < 1 ∧
    (_get_scores (fun _ => 1/4) [⟨0, "query", "a"⟩] [[(1, 2)]] 3).getD 0 0 =
      ((([(1, 2)].map (fun _ => (1 : ℚ)/4)).sum + ((3 : ℚ) - 1)) / 1) := by
  refine ⟨by simp, by decide, ?_⟩
  have h := C2_score_formula (fun _ => 1/4) [⟨0, "query", "a"⟩] [[(1, 2)]] 3
    (by simp) 0 (by decide)
  simpa using h

theorem rankLe_trans (sha256int : String → Nat) (maxSize : Int)
    (subgraphs : List (List (Int × Int))) (a b c : Nat × ℚ)
    (hab : rankLe sha256int maxSize subgraphs a b = true)
    (hbc : rankLe sha256int maxSize subgraphs b c = true) :
    rankLe sha256int maxSize subgraphs a c = true := by
  simp only [rankLe, Bool.or_eq_true, Bool.and_eq_true, decide_eq_true_eq,
    beq_iff_eq] at hab hbc ⊢
  rcases hab with h1 | ⟨h1, h2⟩ <;> rcases hbc with h3 | ⟨h3, h4⟩
  · exact Or.inl (lt_trans h1 h3)
  · exact Or.inl (h3 ▸ h1)
  · exact Or.inl (h1 ▸ h3)
  · exact Or.inr ⟨h1.trans h3, le_trans h2 h4⟩

theorem rankLe_total (sha256int : String → Nat) (maxSize : Int)
    (subgraphs : List (List (Int × Int))) (a b : Nat × ℚ) :
    (rankLe sha256int maxSize subgraphs a b ||
      rankLe sha256int maxSize subgraphs b a) = true := by
  simp only [rankLe, Bool.or_eq_true, Bool.and_eq_true, decide_eq_true_eq,
    beq_iff_eq]
  rcases lt_trichotomy (rankKey sha256int maxSize subgraphs a).1
    (rankKey sha256int maxSize subgraphs b).1 with h | h | h
  · exact Or.inl (Or.inl h)
  · rcases le_total (rankKey sha256int maxSize subgraphs a).2
      (rankKey sha256int maxSize subgraphs b).2 with h2 | h2
    · exact Or.inl (Or.inr ⟨h, h2⟩)
    · exact Or.inr (Or.inr ⟨h.symm, h2⟩)
  · exact Or.inr (Or.inl h)

/-- C3: execute orders the extracted subgraphs ascending by the pair
(score, tie-break hash of the ordered pair sequence of the subgraph),
considers all of them (the ranked list is a permutation of the
enumerated scores), and returns exactly the first
min(n, number of subgraphs) of them; the whole computation is a pure
function of its inputs, so identical inputs give identical ordering,
ties included (see also the C8 theorem). -/
theorem C3_ranking_order (sha256int : String → Nat) (maxSize : Int)
    (db : QueryData) (solve : QueryData → Nat → Nat → OptResult)
    (n hopping_distance max_iters : Nat)
    (hnz : matchCount db ≠ 0) :
    let packed := solve db hopping_distance max_iters
    let query_nodes := sortNodes (_query_nodes db)
    let target_nodes := sortNodes (_target_nodes db)
    let query_edges := sortEdges (_query_edges db)
    let target_edges :=
      sortEdges (_target_edges db target_nodes packed.target_edges_arr)
    let scores :=
      _get_scores packed.inference_costs query_nodes packed.subgraphs packed.sz
    let idxs := rankSort sha256int maxSize packed.subgraphs scores
    List.Pairwise
      (fun a b => rankLe sha256int maxSize packed.subgraphs a b = true)
      idxs ∧
    idxs.Perm scores.enum ∧
    idxs.length = packed.subgraphs.length ∧
    execute sha256int maxSize db solve n hopping_distance max_iters =
      .ok ⟨(idxs.take (min n idxs.length)).map
          (buildGraph sha256int maxSize packed.inference_costs
            packed.subgraphs
            (query_nodes.map (Node.to_dict sha256int maxSize))
            (query_edges.map (Edge.to_dict sha256int maxSize))
            (target_nodes.map (Node.to_dict sha256int maxSize))
            (target_edges.map (Edge.to_dict sha256int maxSize))),
        packed.iters, hopping_distance, max_iters⟩ ∧
    ∀ r, execute sha256int maxSize db solve n hopping_distance max_iters =
        .ok r → r.graphs.length = min n packed.subgraphs.length := by
  intro packed query_nodes target_nodes query_edges target_edges scores idxs
  have hsorted :
      List.Pairwise
        (fun a b => rankLe sha256int maxSize packed.subgraphs a b = true)
        idxs :=
    List.sorted_mergeSort
      (rankLe_trans sha256int maxSize packed.subgraphs)
      (rankLe_total sha256int maxSize packed.subgraphs) scores.enum
  have hperm : idxs.Perm scores.enum :=
    List.mergeSort_perm scores.enum (rankLe sha256int maxSize packed.subgraphs)
  have hlen : idxs.length = packed.subgraphs.length := by
    have h1 : idxs.length = scores.enum.length := hperm.length_eq
    have h2 : scores.enum.length = scores.length := List.enum_length
    have h3 : scores.length = packed.subgraphs.length := by
      simp [scores, _get_scores]
    omega
  have hexec :
      execute sha256int maxSize db solve n hopping_distance max_iters =
        .ok ⟨(idxs.take (min n idxs.length)).map
            (buildGraph sha256int maxSize packed.inference_costs
              packed.subgraphs
              (query_nodes.map (Node.to_dict sha256int maxSize))
              (query_edges.map (Edge.to_dict sha256int maxSize))
              (target_nodes.map (Node.to_dict sha256int maxSize))
              (target_edges.map (Edge.to_dict sha256int maxSize))),
          packed.iters, hopping_distance, max_iters⟩ := by
    simp only [execute, hnz, if_false, reduceIte]
  refine ⟨hsorted, hperm, hlen, hexec, ?_⟩
  intro r hr
  rw [hexec] at hr
  cases hr
  simp only [List.length_map, List.length_take]
  omega

theorem C3_ranking_order_witness :
    matchCount dbC3 ≠ 0 ∧
    (∀ r, execute (fun s => (s.data.map Char.toNat).sum) 2147483647 dbC3
        solveC3 1 2 10 = .ok r → r.graphs.length = min 1 2) ∧
    (execute (fun s => (s.data.map Char.toNat).sum) 2147483647 dbC3
        solveC3 1 2 10).isOk = true := by
  have h := C3_ranking_order (fun s => (s.data.map Char.toNat).sum)
    2147483647 dbC3 solveC3 1 2 10 (by decide)
  refine ⟨by decide, ?_, ?_⟩
  · intro r hr
    exact h.2.2.2.2 r hr
  · rw [h.2.2.2.1]
    rfl

theorem mem_sortPairs {p : Int × Int} {ps : List (Int × Int)} :
    p ∈ sortPairs ps ↔ p ∈ ps :=
  (List.mergeSort_perm ps pairLe).mem_iff

/-- C5: every match edge emitted for a pair (q, t) of a selected
subgraph carries weight exactly 1 - inference_cost (q, t), and when the
inference costs of the pairs of the subgraph lie in [0, 1] every match
edge weight of the built result graph lies in [0, 1]. -/
theorem C5_match_edge_weights (sha256int : String → Nat) (maxSize : Int)
    (inference_costs : Int × Int → ℚ)
    (subgraphs : List (List (Int × Int)))
    (query_nodes_payload : List NodePayload)
    (query_edges_payload : List EdgePayload)
    (target_nodes_payload : List NodePayload)
    (target_edges_payload : List EdgePayload)
    (x : Nat × ℚ)
    (hqe : ∀ e ∈ query_edges_payload, e.type = "query")
    (hte : ∀ e ∈ target_edges_payload, e.type = "target")
    (hcost : ∀ p ∈ subgraphs.getD x.1 [],
      0 ≤ inference_costs p ∧ inference_costs p ≤ 1) :
    (∀ p ∈ subgraphs.getD x.1 [],
      matchPayload sha256int maxSize inference_costs p ∈
        (buildGraph sha256int maxSize inference_costs subgraphs
          query_nodes_payload query_edges_payload
          target_nodes_payload target_edges_payload x).links ∧
      (matchPayload sha256int maxSize inference_costs p).weight =
        1 - inference_costs p) ∧
    (∀ e ∈ (buildGraph sha256int maxSize inference_costs subgraphs
        query_nodes_payload query_edges_payload
        target_nodes_payload target_edges_payload x).links,
      e.type = "match" →
        (∃ p ∈ subgraphs.getD x.1 [], e.weight = 1 - inference_costs p) ∧
        0 ≤ e.weight ∧ e.weight ≤ 1) := by
  constructor
  · intro p hp
    constructor
    · unfold buildGraph
      simp only [List.mem_append]
      left; left
      exact List.mem_map_of_mem _ (mem_sortPairs.mpr hp)
    · exact matchPayload_weight sha256int maxSize inference_costs p
  · intro e he hmatch
    unfold buildGraph at he
    simp only [List.mem_append] at he
    rcases he with (he | he) | he
    · rw [List.mem_map] at he
      obtain ⟨p, hp, rfl⟩ := he
      have hps : p ∈ subgraphs.getD x.1 [] := mem_sortPairs.mp hp
      obtain ⟨h0, h1⟩ := hcost p hps
      rw [matchPayload_weight]
      exact ⟨⟨p, hps, rfl⟩, by linarith, by linarith⟩
    · exact absurd ((hqe e he) ▸ hmatch) (by decide)
    · have := hte e (List.mem_of_mem_filter he)
      exact absurd (this ▸ hmatch) (by decide)

theorem C5_match_edge_weights_witness :
    (∀ p ∈ ([[(1, 10), (2, 20)]] : List (List (Int × Int))).getD 0 [],
      0 ≤ icC5 p ∧ icC5 p ≤ 1) ∧
    (∀ p ∈ ([[(1, 10), (2, 20)]] : List (List (Int × Int))).getD 0 [],
      matchPayload (fun _ => 0) 2147483647 icC5 p ∈
        (buildGraph (fun _ => 0) 2147483647 icC5 [[(1, 10), (2, 20)]]
          [] [] [] [] (0, 0)).links ∧
      (matchPayload (fun _ => 0) 2147483647 icC5 p).weight = 1 - icC5 p) := by
  have h := C5_match_edge_weights (fun _ => 0) 2147483647 icC5
    [[(1, 10), (2, 20)]] [] [] [] [] (0, 0)
    (by intro e he; cases he) (by intro e he; cases he)
    (by decide)
  exact ⟨by decide, h.1⟩

/-- C6: for a selected subgraph S, the assembled result graph contains
every query node payload and every query edge payload, its match-typed
links are exactly one match payload per pair of S, and — whenever the
role-qualified identity hash has no collision on the ids in play — it
contains only target node payloads whose raw id is a match endpoint of
S and only target edge payloads both of whose raw endpoints are match
endpoints of S. -/
theorem C6_assembly (sha256int : String → Nat) (maxSize : Int)
    (inference_costs : Int × Int → ℚ)
    (subgraphs : List (List (Int × Int)))
    (query_nodes_payload : List NodePayload)
    (query_edges_payload : List EdgePayload)
    (target_nodes : List Node) (target_edges : List Edge)
    (x : Nat × ℚ)
    (hS : subgraphs.getD x.1 [] ≠ [])
    (hqn : ∀ p ∈ query_nodes_payload, p.type = "query")
    (hqe : ∀ e ∈ query_edges_payload, e.type = "query")
    (htn : ∀ tn ∈ target_nodes, tn.type = "target")
    (hte : ∀ te ∈ target_edges, te.type = "target")
    (hinj : (target_nodes.map (fun tn => tn.id) ++
        (subgraphs.getD x.1 []).map (fun p => p.2) ++
        target_edges.map (fun te => te.start) ++
        target_edges.map (fun te => te.«end»)).Pairwise
      (fun a b => hashIdType sha256int maxSize a "target" =
        hashIdType sha256int maxSize b "target" → a = b)) :
    let g := buildGraph sha256int maxSize inference_costs subgraphs
      query_nodes_payload query_edges_payload
      (target_nodes.map (Node.to_dict sha256int maxSize))
      (target_edges.map (Edge.to_dict sha256int maxSize)) x
    (∀ p ∈ query_nodes_payload, p ∈ g.nodes) ∧
    (∀ e ∈ query_edges_payload, e ∈ g.links) ∧
    (g.links.filter (fun e => e.type == "match") =
      (sortPairs (subgraphs.getD x.1 [])).map
        (matchPayload sha256int maxSize inference_costs)) ∧
    (∀ nd ∈ g.nodes, nd.type = "target" →
      ∃ tn ∈ target_nodes, nd = Node.to_dict sha256int maxSize tn ∧
        tn.id ∈ (subgraphs.getD x.1 []).map (fun p => p.2)) ∧
    (∀ e ∈ g.links, e.type = "target" →
      ∃ te ∈ target_edges, e = Edge.to_dict sha256int maxSize te ∧
        te.start ∈ (subgraphs.getD x.1 []).map (fun p => p.2) ∧
        te.«end» ∈ (subgraphs.getD x.1 []).map (fun p => p.2)) := by
  intro g
  have hinj2 := pairwise_key_inj
    (fun t => hashIdType sha256int maxSize t "target") _ hinj
  simp only [List.mem_append] at hinj2
  constructor
  · -- all query node payloads are in the nodes list
    intro p hp
    show p ∈ (buildGraph _ _ _ _ _ _ _ _ _).nodes
    unfold buildGraph
    simp only [List.mem_append]
    exact Or.inl hp
  constructor
  · -- all query edge payloads are in the links list
    intro e he
    show e ∈ (buildGraph _ _ _ _ _ _ _ _ _).links
    unfold buildGraph
    simp only [List.mem_append]
    exact Or.inl (Or.inr he)
  constructor
  · -- the match-typed links are exactly one payload per subgraph pair
    show (buildGraph _ _ _ _ _ _ _ _ _).links.filter _ = _
    unfold buildGraph
    simp only [List.filter_append]
    have h1 : ((sortPairs (subgraphs.getD x.1 [])).map
        (matchPayload sha256int maxSize inference_costs)).filter
          (fun e => e.type == "match") =
        (sortPairs (subgraphs.getD x.1 [])).map
          (matchPayload sha256int maxSize inference_costs) := by
      apply List.filter_eq_self.mpr
      intro a ha
      rw [List.mem_map] at ha
      obtain ⟨p, _, rfl⟩ := ha
      simp [matchPayload_type]
    have h2 : query_edges_payload.filter (fun e => e.type == "match") = [] := by
      apply List.filter_eq_nil.mpr
      intro a ha
      simp [hqe a ha]
    have h3 : ((target_edges.map (Edge.to_dict sha256int maxSize)).filter
        (fun e => decide (e.source ∈ (((subgraphs.getD x.1 []).map
            (fun p => p.2)).map
          (fun t => hashIdType sha256int maxSize t "target"))) &&
          decide (e.target ∈ (((subgraphs.getD x.1 []).map
            (fun p => p.2)).map
          (fun t => hashIdType sha256int maxSize t "target"))))).filter
        (fun e => e.type == "match") = [] := by
      apply List.filter_eq_nil.mpr
      intro a ha
      have ha2 := List.mem_of_mem_filter ha
      rw [List.mem_map] at ha2
      obtain ⟨te, hte2, rfl⟩ := ha2
      rw [Edge_to_dict_type]
      simp [hte te hte2]
    rw [h1, h2, h3]
    simp
  constructor
  · -- only matched target nodes appear
    intro nd hnd htype
    have hnd2 : nd ∈ query_nodes_payload ∨
        nd ∈ (target_nodes.map (Node.to_dict sha256int maxSize)).filter
          (fun p => decide (p.id ∈ (((subgraphs.getD x.1 []).map
              (fun p => p.2)).map
            (fun t => hashIdType sha256int maxSize t "target")))) := by
      have : nd ∈ (buildGraph sha256int maxSize inference_costs subgraphs
          query_nodes_payload query_edges_payload
          (target_nodes.map (Node.to_dict sha256int maxSize))
          (target_edges.map (Edge.to_dict sha256int maxSize)) x).nodes := hnd
      unfold buildGraph at this
      simpa only [List.mem_append] using this
    rcases hnd2 with hq | ht
    · exact absurd ((hqn nd hq) ▸ htype) (by decide)
    · rw [List.mem_filter] at ht
      obtain ⟨hmem, hid⟩ := ht
      rw [List.mem_map] at hmem
      obtain ⟨tn, htn2, rfl⟩ := hmem
      rw [decide_eq_true_eq] at hid
      obtain ⟨t, ht2, hteq⟩ := List.mem_map.mp hid
      have htid : (Node.to_dict sha256int maxSize tn).id =
          hashIdType sha256int maxSize tn.id "target" := by
        simp [Node.to_dict, htn tn htn2]
      refine ⟨tn, htn2, rfl, ?_⟩
      have : tn.id = t := by
        apply hinj2 tn.id _ t _
        · rw [← htid, ← hteq]
        · exact Or.inl (Or.inl (Or.inl (List.mem_map_of_mem _ htn2)))
        · exact Or.inl (Or.inl (Or.inr ht2))
      rw [this]
      exact ht2
  · -- only target edges between matched target nodes appear
    intro e he htype
    have he2 : (e ∈ (sortPairs (subgraphs.getD x.1 [])).map
          (matchPayload sha256int maxSize inference_costs) ∨
        e ∈ query_edges_payload) ∨
        e ∈ (target_edges.map (Edge.to_dict sha256int maxSize)).filter
          (fun e => decide (e.source ∈ (((subgraphs.getD x.1 []).map
              (fun p => p.2)).map
            (fun t => hashIdType sha256int maxSize t "target"))) &&
            decide (e.target ∈ (((subgraphs.getD x.1 []).map
              (fun p => p.2)).map
            (fun t => hashIdType sha256int maxSize t "target")))) := by
      have : e ∈ (buildGraph sha256int maxSize inference_costs subgraphs
          query_nodes_payload query_edges_payload
          (target_nodes.map (Node.to_dict sha256int maxSize))
          (target_edges.map (Edge.to_dict sha256int maxSize)) x).links := he
      unfold buildGraph at this
      simpa only [List.mem_append] using this
    rcases he2 with (hm | hq) | ht
    · rw [List.mem_map] at hm
      obtain ⟨p, _, rfl⟩ := hm
      exact absurd ((matchPayload_type sha256int maxSize inference_costs p)
        ▸ htype) (by decide)
    · exact absurd ((hqe e hq) ▸ htype) (by decide)
    · rw [List.mem_filter] at ht
      obtain ⟨hmem, hcond⟩ := ht
      rw [List.mem_map] at hmem
      obtain ⟨te, hte2, rfl⟩ := hmem
      obtain ⟨hsrc, htgt, _⟩ :=
        Edge_to_dict_target sha256int maxSize te (hte te hte2)
      rw [Bool.and_eq_true, decide_eq_true_eq, decide_eq_true_eq] at hcond
      obtain ⟨hc1, hc2⟩ := hcond
      obtain ⟨t1, ht1, hteq1⟩ := List.mem_map.mp hc1
      obtain ⟨t2, ht2, hteq2⟩ := List.mem_map.mp hc2
      refine ⟨te, hte2, rfl, ?_, ?_⟩
      · have : te.start = t1 := by
          apply hinj2 te.start _ t1 _
          · rw [← hsrc, ← hteq1]
          · exact Or.inl (Or.inr (List.mem_map_of_mem _ hte2))
          · exact Or.inl (Or.inl (Or.inr ht1))
        rw [this]; exact ht1
      · have : te.«end» = t2 := by
          apply hinj2 te.«end» _ t2 _
          · rw [← htgt, ← hteq2]
          · exact Or.inr (List.mem_map_of_mem _ hte2)
          · exact Or.inl (Or.inl (Or.inr ht2))
        rw [this]; exact ht2

theorem C6_assembly_witness :
    (∀ p ∈ qnpC6, p ∈ gC6.nodes) ∧
    (∀ nd ∈ gC6.nodes, nd.type = "target" →
      ∃ tn ∈ tnC6, nd = Node.to_dict shaSum mxW tn ∧
        tn.id ∈ (sgC6.getD 0 []).map (fun p => p.2)) := by
  have h := C6_assembly shaSum mxW (fun _ => 0) sgC6 qnpC6 qepC6
    tnC6 teC6 (0, 0) (by decide) (by decide) (by decide) (by decide)
    (by decide) (by decide)
  exact ⟨h.1, h.2.2.2.1⟩

/-- C7 counterexample: a self-correspondence — match start equal to
match end, here 1 and 1, with a perfectly valid weight — passes
check_matches, and passes the whole add_matches ingestion, without any
error: api.py rejects self-loops only for edges (check_edges), never
for matches. -/
theorem C7_self_match_not_rejected :
    check_matches [⟨.pint 1, .pint 1, 1, "m"⟩] =
      .ok [⟨.pint 1, .pint 1, 1, "m"⟩] ∧
    add_matches (fun _ => 0) 2147483647 [.pint 1] [.pint 1] [1] ["m"] =
      .ok [⟨.pint 1, .pint 1, 1, "m"⟩] := by
  constructor <;> rfl

/-- C7 amended: ingestion validation accepts a list of candidate
matches — yielding every match unchanged — exactly when every match has
an int-coercible start, an int-coercible end and a weight in (0, 1];
any other input raises a validation error before the data is persisted
(the enclosing transaction rolls back, so nothing reaches the
optimizer); a self-correspondence (start = end) is not rejected. -/
theorem C7_ingestion_validation (ms : List RawMatch) :
    (check_matches ms = .ok ms ↔
      ∀ m ∈ ms, (pyInt m.start).isOk = true ∧
        (pyInt m.«end»).isOk = true ∧ 0 < m.weight ∧ m.weight ≤ 1) ∧
    ∀ l, check_matches ms = .ok l → l = ms := by
  induction ms with
  | nil =>
    constructor
    · simp [check_matches]
    · intro l hl
      simp only [check_matches] at hl
      cases hl
      rfl
  | cons m ms ih =>
    obtain ⟨ih1, ih2⟩ := ih
    have hsecond : ∀ l, check_matches (m :: ms) = .ok l → l = m :: ms := by
      intro l hl
      rcases hs : pyInt m.start with es | a
      · simp only [check_matches, hs] at hl
        cases hl
      · rcases hev : pyInt m.«end» with ee | b
        · simp only [check_matches, hs, hev] at hl
          cases hl
        · simp only [check_matches, hs, hev] at hl
          split at hl
          · rcases hc : check_matches ms with ec | l'
            · rw [hc] at hl
              simp only [Except.map] at hl
              cases hl
            · rw [hc] at hl
              simp only [Except.map] at hl
              cases hl
              rw [ih2 l' hc]
          · cases hl
    refine ⟨⟨?_, ?_⟩, hsecond⟩
    · intro h
      rcases hs : pyInt m.start with es | a
      · simp only [check_matches, hs] at h
        cases h
      · rcases hev : pyInt m.«end» with ee | b
        · simp only [check_matches, hs, hev] at h
          cases h
        · simp only [check_matches, hs, hev] at h
          split at h
          · rename_i hw
            rcases hc : check_matches ms with ec | l'
            · rw [hc] at h
              simp only [Except.map] at h
              cases h
            · rw [hc] at h
              simp only [Except.map] at h
              cases h
              intro m' hm'
              rw [List.mem_cons] at hm'
              rcases hm' with rfl | hm'
              · exact ⟨by simp [hs, Except.isOk, Except.toBool],
                  by simp [hev, Except.isOk, Except.toBool], hw.1, hw.2⟩
              · exact ih1.mp hc m' hm'
          · cases h
    · intro h
      obtain ⟨h1, h2, h3, h4⟩ := h m (by simp)
      rcases hs : pyInt m.start with es | a
      · rw [hs] at h1
        simp [Except.isOk, Except.toBool] at h1
      · rcases hev : pyInt m.«end» with ee | b
        · rw [hev] at h2
          simp [Except.isOk, Except.toBool] at h2
        · have hms : check_matches ms = .ok ms :=
            ih1.mpr (fun m' hm' => h m' (by simp [hm']))
          simp only [check_matches, hs, hev, if_pos (And.intro h3 h4), hms,
            Except.map]

theorem C7_ingestion_validation_witness :
    check_matches [⟨.pint 1, .pint 2, 1, "m"⟩] =
      .ok [⟨.pint 1, .pint 2, 1, "m"⟩] :=
  (C7_ingestion_validation [⟨.pint 1, .pint 2, 1, "m"⟩]).1.mpr (by decide)

/-- C8: execute is a pure function of the persisted data, the
neighbourhood/optimiser collaborator and the parameters: two
invocations over identical persisted graph, node, edge and match data
with the same parameter triple return identical results — same scores,
same tie-break order, same payloads.  The embedding has no other input
(the unsalted sha256, the storage width limit and the solve function
are all explicit arguments), so the computation contains no source of
non-determinism. -/
theorem C8_idempotent_execution (sha256int : String → Nat) (maxSize : Int)
    (db db' : QueryData) (solve : QueryData → Nat → Nat → OptResult)
    (n hopping_distance max_iters : Nat) (hdb : db = db') :
    execute sha256int maxSize db solve n hopping_distance max_iters =
      execute sha256int maxSize db' solve n hopping_distance max_iters := by
  rw [hdb]

theorem C8_idempotent_execution_witness :
    dbC3 = dbC3 ∧
    execute shaSum mxW dbC3 solveC3 5 2 10 =
      execute shaSum mxW dbC3 solveC3 5 2 10 :=
  ⟨rfl, C8_idempotent_execution shaSum mxW dbC3 dbC3 solveC3 5 2 10 rfl⟩

theorem add_edges_both_directions (sha256int : String → Nat) (maxSize : Int)
    (sources targets : List PyKey) (metas : List String)
    (rows : List EdgeRow)
    (hok : add_edges sha256int maxSize sources targets metas = .ok rows) :
    (∀ e ∈ rows, (⟨e.«end», e.start, e.meta⟩ : EdgeRow) ∈ rows) ∧
    (∀ z ∈ (sources.map (_hash sha256int maxSize)).zip
        ((targets.map (_hash sha256int maxSize)).zip metas),
      (⟨z.1, z.2.1, z.2.2⟩ : EdgeRow) ∈ rows ∧
      (⟨z.2.1, z.1, z.2.2⟩ : EdgeRow) ∈ rows) ∧
    (∀ e ∈ rows, e.start ≠ e.«end») := by
  unfold add_edges at hok
  obtain ⟨hrows, hne⟩ := check_edges_ok hok
  rw [← hrows] at hne
  refine ⟨?_, ?_, hne⟩
  · intro e he
    rw [hrows, List.mem_flatMap] at he ⊢
    obtain ⟨z, hzmem, hze⟩ := he
    refine ⟨z, hzmem, ?_⟩
    simp only [List.mem_cons, List.mem_singleton] at hze ⊢
    rcases hze with rfl | rfl | h0
    · exact Or.inr (Or.inl rfl)
    · exact Or.inl rfl
    · cases h0
  · intro z hzmem
    constructor <;>
      · rw [hrows, List.mem_flatMap]
        exact ⟨z, hzmem, by simp⟩

theorem _target_edges_canonical (db : QueryData) (target_nodes : List Node)
    (target_edges_arr : List TargetEdgeRec) :
    ∀ ed ∈ _target_edges db target_nodes target_edges_arr,
      ed.start < ed.«end» := by
  intro ed hed
  simp only [_target_edges, List.mem_map] at hed
  obtain ⟨r, hr, rfl⟩ := hed
  have hr2 := (List.mem_filter.mp (List.mem_dedup.mp hr)).2
  simp only [Bool.and_eq_true, decide_eq_true_eq] at hr2
  exact hr2.2

theorem _target_edges_nodup_pairs (db : QueryData) (target_nodes : List Node)
    (target_edges_arr : List TargetEdgeRec)
    (h : (db.target_edges.map (fun e => (e.start, e.«end»))).Nodup) :
    ((_target_edges db target_nodes target_edges_arr).map
      (fun ed => (ed.start, ed.«end»))).Nodup := by
  simp only [_target_edges, List.map_map]
  exact h.sublist
    (((List.dedup_sublist _).trans (List.filter_sublist _)).map _)

/-- C9: add_edges stores every added pair in both directions (on the
hashed endpoints, with equal metadata) — whichever graph it is applied
to, query or target — and both presentation reads canonicalise: the
query-edge read yields only edges with start < end and, for each stored
row, exactly one representative of its undirected pair; the target-edge
read likewise yields only edges with start < end and each undirected
pair it yields exactly once — provided the stored rows of each graph
are pairwise distinct on (start, end).

Modelled from the spec: the row-uniqueness hypotheses are the storage
schema invariant of fornax/model.py, which is not among the sources;
§3 of the spec, stating that edges are stored symmetrically and
presented once per undirected pair, presumes rows keyed by
(graph, start, end). -/
theorem C9_symmetric_storage (sha256int : String → Nat) (maxSize : Int)
    (sources targets : List PyKey) (metas : List String)
    (sources_t targets_t : List PyKey) (metas_t : List String)
    (rows rows_t : List EdgeRow) (db : QueryData)
    (target_nodes : List Node) (target_edges_arr : List TargetEdgeRec)
    (hok : add_edges sha256int maxSize sources targets metas = .ok rows)
    (hok_t : add_edges sha256int maxSize sources_t targets_t metas_t =
      .ok rows_t)
    (hdb : db.query_edges = rows)
    (hdb_t : db.target_edges = rows_t)
    (hnodup : (rows.map (fun e => (e.start, e.«end»))).Nodup)
    (hnodup_t : (rows_t.map (fun e => (e.start, e.«end»))).Nodup) :
    (∀ e ∈ rows, (⟨e.«end», e.start, e.meta⟩ : EdgeRow) ∈ rows) ∧
    (∀ z ∈ (sources.map (_hash sha256int maxSize)).zip
        ((targets.map (_hash sha256int maxSize)).zip metas),
      (⟨z.1, z.2.1, z.2.2⟩ : EdgeRow) ∈ rows ∧
      (⟨z.2.1, z.1, z.2.2⟩ : EdgeRow) ∈ rows) ∧
    (∀ e ∈ rows_t, (⟨e.«end», e.start, e.meta⟩ : EdgeRow) ∈ rows_t) ∧
    (∀ ed ∈ _query_edges db, ed.start < ed.«end») ∧
    (∀ e ∈ rows, (_query_edges db).countP (fun ed =>
        decide (ed.start = min e.start e.«end» ∧
          ed.«end» = max e.start e.«end»)) = 1) ∧
    (∀ ed ∈ _target_edges db target_nodes target_edges_arr,
      ed.start < ed.«end») ∧
    (∀ ed ∈ _target_edges db target_nodes target_edges_arr,
      (_target_edges db target_nodes target_edges_arr).countP (fun ed2 =>
        decide (min ed2.start ed2.«end» = min ed.start ed.«end» ∧
          max ed2.start ed2.«end» = max ed.start ed.«end»)) = 1) := by
  obtain ⟨hsymm, hboth, hne⟩ :=
    add_edges_both_directions sha256int maxSize sources targets metas
      rows hok
  obtain ⟨hsymm_t, -, -⟩ :=
    add_edges_both_directions sha256int maxSize sources_t targets_t metas_t
      rows_t hok_t
  have hqedges : _query_edges db =
      (rows.filter (fun r => decide (r.start < r.«end»))).map
        (fun e => (⟨e.start, e.«end», "query", some e.meta, 1⟩ : Edge)) := by
    unfold _query_edges
    rw [hdb]
  have hcanon := _target_edges_canonical db target_nodes target_edges_arr
  refine ⟨hsymm, hboth, hsymm_t, ?_, ?_, hcanon, ?_⟩
  · intro ed hed
    rw [hqedges, List.mem_map] at hed
    obtain ⟨r, hrf, rfl⟩ := hed
    have := (List.mem_filter.mp hrf).2
    simpa using this
  · intro e he
    rw [hqedges, List.countP_map, List.countP_filter]
    have hmnmx : min e.start e.«end» < max e.start e.«end» := by
      have := hne e he
      omega
    have hmem : (min e.start e.«end», max e.start e.«end») ∈
        rows.map (fun r => (r.start, r.«end»)) := by
      rw [List.mem_map]
      rcases lt_or_gt_of_ne (hne e he) with hlt | hgt
      · exact ⟨e, he, by rw [min_eq_left hlt.le, max_eq_right hlt.le]⟩
      · refine ⟨⟨e.«end», e.start, e.meta⟩, hsymm e he, ?_⟩
        simp only
        rw [min_eq_right hgt.le, max_eq_left hgt.le]
    have hcnt := countP_eq_one_of_nodup_map (fun r => (r.start, r.«end»))
      rows hnodup (min e.start e.«end», max e.start e.«end») hmem
    refine Eq.trans (List.countP_congr ?_) hcnt
    intro r _
    simp only [Function.comp, Bool.and_eq_true, decide_eq_true_eq,
      Prod.mk.injEq]
    constructor
    · rintro ⟨⟨h1, h2⟩, _⟩
      exact ⟨h1, h2⟩
    · rintro ⟨h1, h2⟩
      refine ⟨⟨h1, h2⟩, ?_⟩
      rw [h1, h2]
      exact hmnmx
  · intro ed hed
    have hlt := hcanon ed hed
    have hnd := _target_edges_nodup_pairs db target_nodes target_edges_arr
      (by rw [hdb_t]; exact hnodup_t)
    have hb : (ed.start, ed.«end») ∈
        (_target_edges db target_nodes target_edges_arr).map
          (fun ed2 => (ed2.start, ed2.«end»)) :=
      List.mem_map_of_mem _ hed
    have hcnt := countP_eq_one_of_nodup_map
      (fun ed2 => (ed2.start, ed2.«end»))
      (_target_edges db target_nodes target_edges_arr) hnd
      (ed.start, ed.«end») hb
    refine Eq.trans (List.countP_congr ?_) hcnt
    intro ed2 hed2
    have hlt2 := hcanon ed2 hed2
    rw [min_eq_left hlt.le, max_eq_right hlt.le,
      min_eq_left hlt2.le, max_eq_right hlt2.le]
    simp only [decide_eq_true_eq, Prod.mk.injEq]

theorem C9_symmetric_storage_witness :
    add_edges (fun _ => 0) mxW [.pint 1] [.pint 2] ["m"] = .ok rowsC9 ∧
    add_edges (fun _ => 0) mxW [.pint 3] [.pint 4] ["m"] = .ok rowsC9t ∧
    (∀ ed ∈ _query_edges dbC9, ed.start < ed.«end») ∧
    (_query_edges dbC9).countP (fun ed =>
        decide (ed.start = min (1 : Int) 2 ∧
          ed.«end» = max (1 : Int) 2)) = 1 ∧
    (∀ ed ∈ _target_edges dbC9 tnC9 arrC9, ed.start < ed.«end») ∧
    (_target_edges dbC9 tnC9 arrC9).countP (fun ed2 =>
        decide (min ed2.start ed2.«end» = min (3 : Int) 4 ∧
          max ed2.start ed2.«end» = max (3 : Int) 4)) = 1 := by
  have h := C9_symmetric_storage (fun _ => 0) mxW [.pint 1] [.pint 2]
    ["m"] [.pint 3] [.pint 4] ["m"] rowsC9 rowsC9t dbC9 tnC9 arrC9
    (by rfl) (by rfl) rfl rfl (by decide) (by decide)
  exact ⟨by rfl, by rfl, h.2.2.2.1, h.2.2.2.2.1 ⟨1, 2, "m"⟩ (by decide),
    h.2.2.2.2.2.1,
    h.2.2.2.2.2.2 ⟨3, 4, "target", some "m", 1⟩ (by decide)⟩

/-- C10: during result assembly, _target_edges admits a record of the
optimiser target-edge array only when its recorded path distance is
strictly below the constant 2: filtering the array to dist_u < 2
beforehand never changes the outcome (and _target_edges takes no
hopping-distance input at all — execute calls it without passing the
parameter on).  Concretely, a record at distance 2 — inside the radius
for any execute call with hopping_distance = 3 — contributes nothing,
while the same record at distance 1 yields the stored target edge. -/
theorem C10_constant_distance_cutoff :
    (∀ (db : QueryData) (target_nodes : List Node)
      (arr : List TargetEdgeRec),
      _target_edges db target_nodes arr =
        _target_edges db target_nodes
          (arr.filter (fun r => decide (r.dist_u < 2)))) ∧
    _target_edges dbC10 tnC10 [⟨10, 20, 2⟩] = [] ∧
    _target_edges dbC10 tnC10 [⟨10, 20, 1⟩] =
      [⟨10, 20, "target", some "m", 1⟩] := by
  refine ⟨?_, by decide, by decide⟩
  intro db tn arr
  have hff : (arr.filter (fun r => decide (r.dist_u < 2))).filter
      (fun r => decide (r.dist_u < 2)) =
      arr.filter (fun r => decide (r.dist_u < 2)) :=
    List.filter_eq_self.mpr (fun a ha => (List.mem_filter.mp ha).2)
  unfold _target_edges
  rw [hff]

end Fornax

